import Mathlib

set_option maxRecDepth 1000000

set_option allowUnsafeReducibility true

attribute [semireducible] Rat.add Rat.mul Rat.sub Rat.inv Rat.ofScientific

/-!
Verification of the explicit finite-difference stepper from the CFDPython
lessons `01_Step_1.ipynb` (linear convection) and `02_Step_2.ipynb`
(nonlinear convection).

The Python core, in both notebooks, is the nested loop

  for n in range(nt):
      un = u.copy()
      for i in range(1, nx):
          u[i] = un[i] - c * dt / dx * (un[i] - un[i-1])        -- Step 1
          u[i] = un[i] - un[i] * dt / dx * (un[i] - un[i-1])    -- Step 2

together with the initial condition

  u = numpy.ones(nx)
  u[int(.5 / dx):int(1 / dx + 1)] = 2

We embed fields as lists of rationals (exact arithmetic) and the inner
imperative loop literally, as a fold of in-place writes (`List.set`) over
the index range 1 .. nx-1, reading only from the snapshot `un`.  The
advection speed is abstracted as `speed : ℚ → ℚ` applied to the local
previous-step value, so `fun _ => c` gives the Step-1 line and `fun a => a`
gives the Step-2 line, exactly as in the source.
-/

/-- The right-hand side of the update line
`u[i] = un[i] - c * dt / dx * (un[i] - un[i-1])`, with the constant `c`
generalised to `speed` applied to the local previous-step value `un[i]`
(the Step-2 notebook uses `un[i] * dt / dx * ...`, i.e. `speed = fun a => a`).
All reads are from the snapshot `un`. -/
def newVal (speed : ℚ → ℚ) (dt dx : ℚ) (un : List ℚ) (i : ℕ) : ℚ :=
  un.getD i 0 - speed (un.getD i 0) * dt / dx * (un.getD i 0 - un.getD (i - 1) 0)

/-- The inner spatial loop `for i in range(first, first + fuel): u[i] = ...`,
mutating `u` in place while reading from the snapshot `un`. -/
def sweepLoop (speed : ℚ → ℚ) (dt dx : ℚ) (un : List ℚ) :
    ℕ → ℕ → List ℚ → List ℚ
  | _, 0, u => u
  | first, fuel + 1, u =>
      sweepLoop speed dt dx un (first + 1) fuel
        (u.set first (newVal speed dt dx un first))

/-- One time step: `un = u.copy()` followed by
`for i in range(1, nx): u[i] = un[i] - speed(un[i]) * dt / dx * (un[i] - un[i-1])`. -/
def sweep (speed : ℚ → ℚ) (dt dx : ℚ) (u : List ℚ) : List ℚ :=
  sweepLoop speed dt dx u 1 (u.length - 1) u

/-- The outer time loop `for n in range(steps)`: advance the field by
`steps` sweeps. -/
def advance (speed : ℚ → ℚ) (dt dx : ℚ) : ℕ → List ℚ → List ℚ
  | 0, u => u
  | n + 1, u => advance speed dt dx n (sweep speed dt dx u)

/-- The linear stepper of `01_Step_1.ipynb`: constant wavespeed `c`. -/
def linearAdvance (c dt dx : ℚ) (steps : ℕ) (u : List ℚ) : List ℚ :=
  advance (fun _ => c) dt dx steps u

/-- The nonlinear stepper of `02_Step_2.ipynb`: the local previous-step
value itself is the advection speed. -/
def nonlinearAdvance (dt dx : ℚ) (steps : ℕ) (u : List ℚ) : List ℚ :=
  advance (fun a => a) dt dx steps u

/-- Modelled from the spec: one sweep written positionally, the reference
definition of section 4.1 of the specification — index 0 is kept, and every
index `i` from 1 to N-1 inclusive is set to
`snapshot[i] - speed_fn(snapshot[i]) * (dt/dx) * (snapshot[i] - snapshot[i-1])`,
where `snapshot` is the field at the start of the sweep. -/
def sweepSpec (speed : ℚ → ℚ) (dt dx : ℚ) (u : List ℚ) : List ℚ :=
  (List.range u.length).map fun i =>
    if i = 0 then u.getD 0 0
    else u.getD i 0 - speed (u.getD i 0) * (dt / dx) * (u.getD i 0 - u.getD (i - 1) 0)

/-- Modelled from the spec: `advance` as the reference definition —
`steps` iterations of the positional sweep. -/
def advanceSpec (speed : ℚ → ℚ) (dt dx : ℚ) : ℕ → List ℚ → List ℚ
  | 0, u => u
  | n + 1, u => advanceSpec speed dt dx n (sweepSpec speed dt dx u)

/-- Python `int(...)` applied to a real value: truncation toward zero. -/
def pyInt (q : ℚ) : ℤ :=
  if 0 ≤ q then ⌊q⌋ else -⌊-q⌋

/-- The initial-condition builder of both notebooks:
`u = numpy.ones(nx)` followed by `u[int(.5 / dx):int(1 / dx + 1)] = 2`.
The slice bounds are nonnegative for the grids used (they are 10 and 21),
so the slice assignment is the plain write of `2` to every index `i` with
`int(.5/dx) <= i < int(1/dx + 1)`. -/
def hatIC (nx : ℕ) (dx : ℚ) : List ℚ :=
  let a := (pyInt (1 / 2 / dx)).toNat
  let b := (pyInt (1 / dx + 1)).toNat
  (List.replicate nx (1 : ℚ)).mapIdx fun i x => if a ≤ i ∧ i < b then 2 else x

/-- The Step-1 / Step-2 initial field: `nx = 41`, `dx = 2 / (nx - 1)`. -/
def ic41 : List ℚ :=
  hatIC 41 (2 / (41 - 1))

/-- The single error Python can raise while the notebooks build the grid
spacing `dx = 2 / (nx - 1)`: division by zero. -/
inductive PyError where
  | zeroDivision
deriving DecidableEq

/-- Grid construction as written in both notebooks: `dx = 2 / (nx - 1)`.
Python raises `ZeroDivisionError` exactly when `nx = 1`; for every other
`nx`, including `nx = 0`, the division succeeds. -/
def mkDx (nx : ℤ) : Except PyError ℚ :=
  if nx - 1 = 0 then Except.error PyError.zeroDivision
  else Except.ok (2 / ((nx : ℚ) - 1))

/-- The update value with every array read made explicit and fallible:
`un[i]` and `un[i-1]` return `none` out of bounds. -/
def newValO (speed : ℚ → ℚ) (dt dx : ℚ) (un : List ℚ) (i : ℕ) : Option ℚ :=
  match un[i]?, un[i - 1]? with
  | some a, some b => some (a - speed a * dt / dx * (a - b))
  | _, _ => none

/-- A fallible in-place write: `none` when the index is out of range,
as Python list/array assignment would fail there. -/
def setO (u : List ℚ) (i : ℕ) (v : ℚ) : Option (List ℚ) :=
  if i < u.length then some (u.set i v) else none

/-- The inner spatial loop with every array access checked. -/
def sweepLoopO (speed : ℚ → ℚ) (dt dx : ℚ) (un : List ℚ) :
    ℕ → ℕ → List ℚ → Option (List ℚ)
  | _, 0, u => some u
  | first, fuel + 1, u =>
      (newValO speed dt dx un first).bind fun v =>
        (setO u first v).bind fun u2 =>
          sweepLoopO speed dt dx un (first + 1) fuel u2

/-- One checked time step. -/
def sweepO (speed : ℚ → ℚ) (dt dx : ℚ) (u : List ℚ) : Option (List ℚ) :=
  sweepLoopO speed dt dx u 1 (u.length - 1) u

/-- The checked stepper: `none` exactly when some sweep performs an
out-of-bounds access. -/
def advanceO (speed : ℚ → ℚ) (dt dx : ℚ) : ℕ → List ℚ → Option (List ℚ)
  | 0, u => some u
  | n + 1, u => (sweepO speed dt dx u).bind (advanceO speed dt dx n)

/-- The greatest index of the field whose value is strictly above the
threshold `t` (0 when there is none). -/
def lastIdxAbove (t : ℚ) (u : List ℚ) : ℕ :=
  (List.range u.length).foldl (fun acc i => if t < u.getD i 0 then i else acc) 0

/-- The greatest index of the field whose value is at least the
threshold `t` (0 when there is none). -/
def lastIdxAtLeast (t : ℚ) (u : List ℚ) : ℕ :=
  (List.range u.length).foldl (fun acc i => if t ≤ u.getD i 0 then i else acc) 0

/-- The Step-1 run: hat initial condition, `c = 1`, `dt = 0.025`,
`dx = 2 / (41 - 1)`, 25 time steps, in exact rational arithmetic. -/
def final25 : List ℚ :=
  linearAdvance 1 0.025 (2 / (41 - 1)) 25 ic41

theorem sweepLoop_length (speed : ℚ → ℚ) (dt dx : ℚ) (un : List ℚ)
    (first fuel : ℕ) (u : List ℚ) :
    (sweepLoop speed dt dx un first fuel u).length = u.length := by
  induction fuel generalizing first u with
  | zero => rfl
  | succ fuel ih =>
      rw [sweepLoop, ih, List.length_set]

theorem sweepLoop_getElem? (speed : ℚ → ℚ) (dt dx : ℚ) (un : List ℚ)
    (first fuel : ℕ) (u : List ℚ) (j : ℕ) :
    (sweepLoop speed dt dx un first fuel u)[j]? =
      if first ≤ j ∧ j < first + fuel ∧ j < u.length then
        some (newVal speed dt dx un j)
      else u[j]? := by
  induction fuel generalizing first u with
  | zero =>
      rw [sweepLoop, if_neg (by omega)]
  | succ fuel ih =>
      rw [sweepLoop, ih, List.length_set, List.getElem?_set]
      split_ifs <;>
        first
          | rfl
          | omega
          | (exact (List.getElem?_eq_none (by omega)).symm)
          | (exact List.getElem?_eq_none (by omega))
          | simp_all

theorem sweep_length (speed : ℚ → ℚ) (dt dx : ℚ) (u : List ℚ) :
    (sweep speed dt dx u).length = u.length :=
  sweepLoop_length speed dt dx u 1 (u.length - 1) u

theorem sweep_getElem? (speed : ℚ → ℚ) (dt dx : ℚ) (u : List ℚ) (j : ℕ) :
    (sweep speed dt dx u)[j]? =
      if 1 ≤ j ∧ j < u.length then some (newVal speed dt dx u j) else u[j]? := by
  rw [sweep, sweepLoop_getElem?]
  by_cases h : 1 ≤ j ∧ j < u.length
  · rw [if_pos ⟨h.1, by omega, h.2⟩, if_pos h]
  · rw [if_neg (by omega), if_neg h]

theorem advance_length (speed : ℚ → ℚ) (dt dx : ℚ) (steps : ℕ) (u : List ℚ) :
    (advance speed dt dx steps u).length = u.length := by
  induction steps generalizing u with
  | zero => rfl
  | succ n ih => rw [advance, ih, sweep_length]

theorem getElem?_eq_some_getD (l : List ℚ) (j : ℕ) (h : j < l.length) :
    l[j]? = some (l.getD j 0) := by
  rw [List.getD_eq_getElem?_getD, List.getElem?_eq_getElem h, Option.getD_some]

theorem sweepSpec_length (speed : ℚ → ℚ) (dt dx : ℚ) (u : List ℚ) :
    (sweepSpec speed dt dx u).length = u.length := by
  rw [sweepSpec, List.length_map, List.length_range]

theorem sweep_eq_sweepSpec (speed : ℚ → ℚ) (dt dx : ℚ) (u : List ℚ) :
    sweep speed dt dx u = sweepSpec speed dt dx u := by
  apply List.ext_getElem?
  intro j
  rw [sweep_getElem?, sweepSpec, List.getElem?_map]
  by_cases hj : j < u.length
  · rw [List.getElem?_range hj]
    by_cases h0 : j = 0
    · subst h0
      rw [if_neg (by omega)]
      rw [getElem?_eq_some_getD u 0 hj]
      simp
    · rw [if_pos ⟨by omega, hj⟩]
      simp only [Option.map_some', if_neg h0]
      congr 1
      unfold newVal
      ring
  · have hr : (List.range u.length)[j]? = none :=
      List.getElem?_eq_none (by rw [List.length_range]; omega)
    rw [if_neg (by omega), hr,
      List.getElem?_eq_none (show u.length ≤ j by omega)]
    rfl

theorem advance_eq_advanceSpec_aux (speed : ℚ → ℚ) (dt dx : ℚ) (steps : ℕ)
    (u : List ℚ) :
    advance speed dt dx steps u = advanceSpec speed dt dx steps u := by
  induction steps generalizing u with
  | zero => rfl
  | succ n ih => rw [advance, advanceSpec, sweep_eq_sweepSpec, ih]

/-- C1: for every field of at least two points, every step count, positive
`dx` and `dt`, and every speed function (constant for the linear notebook,
the local value for the nonlinear one), the imperative stepper — `steps`
sweeps, each writing `field[i] = snapshot[i] - speed(snapshot[i]) * (dt/dx)
* (snapshot[i] - snapshot[i-1])` for every `i` from 1 to N-1 over the
pre-sweep snapshot — returns exactly the positional reference definition
of the specification. -/
theorem advance_eq_referenceSpec (u : List ℚ) (speed : ℚ → ℚ) (dt dx : ℚ)
    (steps : ℕ) (hN : 2 ≤ u.length) (hdx : 0 < dx) (hdt : 0 < dt) :
    advance speed dt dx steps u = advanceSpec speed dt dx steps u :=
  advance_eq_advanceSpec_aux speed dt dx steps u

theorem advance_eq_referenceSpec_witness :
    2 ≤ ([4, 7, 9] : List ℚ).length ∧ (0 : ℚ) < 1 ∧ (0 : ℚ) < 2 ∧
      advance (fun a => a) 2 1 3 [4, 7, 9] =
        advanceSpec (fun a => a) 2 1 3 [4, 7, 9] :=
  ⟨by decide, by norm_num, by norm_num,
    advance_eq_referenceSpec [4, 7, 9] (fun a => a) 2 1 3 (by decide)
      (by norm_num) (by norm_num)⟩

/-- C2: element 0 of the field is never written by any sweep, so after any
number of steps of the stepper — with any speed function, hence in both
the linear and the nonlinear notebook — it equals element 0 of the
initial field. -/
theorem advance_fixes_left_boundary (u : List ℚ) (speed : ℚ → ℚ)
    (dt dx : ℚ) (steps : ℕ) (hN : 2 ≤ u.length) :
    (advance speed dt dx steps u)[0]? = u[0]? := by
  induction steps generalizing u with
  | zero => rfl
  | succ n ih =>
      rw [advance, ih (sweep speed dt dx u) (by rw [sweep_length]; exact hN),
        sweep_getElem?, if_neg (by omega)]

theorem advance_fixes_left_boundary_witness :
    2 ≤ ([5, 1, 8] : List ℚ).length ∧
      (advance (fun _ => 3) 1 2 4 [5, 1, 8])[0]? = ([5, 1, 8] : List ℚ)[0]? :=
  ⟨by decide, advance_fixes_left_boundary [5, 1, 8] (fun _ => 3) 1 2 4 (by decide)⟩

/-- C3: within one sweep every read comes from the pre-sweep snapshot: the
value the loop leaves at interior index `i` is exactly the function of
`snapshot[i]` and `snapshot[i-1]` given by the update line, independent of
the writes the same sweep has already performed at indices below `i`. -/
theorem sweep_reads_only_snapshot (u : List ℚ) (speed : ℚ → ℚ) (dt dx : ℚ)
    (i : ℕ) (h1 : 1 ≤ i) (h2 : i < u.length) :
    (sweep speed dt dx u)[i]? =
      some (u.getD i 0 -
        speed (u.getD i 0) * dt / dx * (u.getD i 0 - u.getD (i - 1) 0)) := by
  rw [sweep_getElem?, if_pos ⟨h1, h2⟩]
  rfl

theorem sweep_reads_only_snapshot_witness :
    1 ≤ 2 ∧ 2 < ([1, 2, 4] : List ℚ).length ∧
      (sweep (fun a => a) 1 1 [1, 2, 4])[2]? =
        some ((4 : ℚ) - 4 * 1 / 1 * (4 - 2)) :=
  ⟨by decide, by decide,
    sweep_reads_only_snapshot [1, 2, 4] (fun a => a) 1 1 2 (by decide) (by decide)⟩

/-- C4: with `steps = 0` the outer loop body never runs and the stepper
returns the input field unchanged. -/
theorem advance_zero_steps (speed : ℚ → ℚ) (dt dx : ℚ) (u : List ℚ) :
    advance speed dt dx 0 u = u :=
  rfl

theorem sweep_const_speed_zero (dt dx : ℚ) (u : List ℚ) :
    sweep (fun _ => 0) dt dx u = u := by
  apply List.ext_getElem?
  intro j
  rw [sweep_getElem?]
  split_ifs with h
  · rw [getElem?_eq_some_getD u j h.2]
    congr 1
    unfold newVal
    simp
  · rfl

/-- C5: the linear stepper with constant advection speed `c = 0` leaves
every field unchanged after any number of steps, for any positive `dx`
and `dt`. -/
theorem linearAdvance_speed_zero (u : List ℚ) (dt dx : ℚ) (steps : ℕ)
    (hdx : 0 < dx) (hdt : 0 < dt) :
    linearAdvance 0 dt dx steps u = u := by
  rw [linearAdvance]
  induction steps with
  | zero => rfl
  | succ n ih => rw [advance, sweep_const_speed_zero, ih]

theorem linearAdvance_speed_zero_witness :
    (0 : ℚ) < 2 ∧ (0 : ℚ) < 3 ∧ linearAdvance 0 3 2 5 [9, 4, 6] = [9, 4, 6] :=
  ⟨by norm_num, by norm_num,
    linearAdvance_speed_zero [9, 4, 6] 3 2 5 (by norm_num) (by norm_num)⟩

/-- C6: for 41 points over [0, 2] with `dx = 2/(41-1)`, the initial
condition builder yields value 2 exactly at the indices whose coordinate
`i * dx` lies in the closed interval from 1/2 to 1 — indices 10 through
20 — and value 1 everywhere else. -/
theorem hatIC_characterization :
    ic41.length = 41 ∧ ∀ i, i < 41 →
      (ic41.getD i 0 =
        if 1/2 ≤ (i : ℚ) * (2 / (41 - 1)) ∧ (i : ℚ) * (2 / (41 - 1)) ≤ 1
        then 2 else 1) ∧
      (ic41.getD i 0 = 2 ↔ 10 ≤ i ∧ i ≤ 20) := by
  decide

theorem hatIC_characterization_witness :
    (ic41.getD 12 0 =
      if 1/2 ≤ (12 : ℚ) * (2 / (41 - 1)) ∧ (12 : ℚ) * (2 / (41 - 1)) ≤ 1
      then 2 else 1) ∧
    (ic41.getD 12 0 = 2 ↔ 10 ≤ 12 ∧ 12 ≤ 20) :=
  hatIC_characterization.2 12 (by decide)

/-- C7 counterexample: reading the leading edge literally as the greatest
index whose value is strictly above 1, the 25-step linear run moves it
from index 20 to index 40 — a shift of 20 cells, which is not within 2
cells of `c * steps * dt / dx = 12.5`.  (Every index from 10 to 40 ends
strictly above 1; the strict support spreads one cell per step, so the
literal transition point does not track the travelling wave.) -/
theorem linear_edge_literal_counterexample :
    lastIdxAbove 1 ic41 = 20 ∧ lastIdxAbove 1 final25 = 40 ∧
      ¬((40 - 20 : ℚ) - 1 * 25 * 0.025 / (2 / (41 - 1)) ≤ 2) :=
  ⟨by decide, by decide, by norm_num⟩

/-- C7 (amended): measuring the leading edge at half height — the greatest
index whose value is at least 3/2 — the 25-step linear run moves it from
index 20 to index 32, a shift of 12 cells, within one cell of
`c * steps * dt / dx = 12.5`; and the resulting profile is not a perfect
rectangle: the value at interior index 25 lies strictly between 1 and 2. -/
theorem linear_edge_half_height_amended :
    lastIdxAtLeast (3/2) ic41 = 20 ∧ lastIdxAtLeast (3/2) final25 = 32 ∧
      (32 - 20 : ℚ) - 1 * 25 * 0.025 / (2 / (41 - 1)) ≤ 1 ∧
      1 * 25 * 0.025 / (2 / (41 - 1)) - (32 - 20 : ℚ) ≤ 1 ∧
      1 < final25.getD 25 0 ∧ final25.getD 25 0 < 2 :=
  ⟨by decide, by decide, by norm_num, by norm_num, by decide, by decide⟩

/-- C8 counterexample: the notebooks validate nothing at grid
construction; for the malformed point count `nx = 0` the line
`dx = 2 / (nx - 1)` simply succeeds, yielding the negative spacing -2,
so construction does not fail at all — with a structured error or
otherwise. -/
theorem mkDx_no_validation_counterexample :
    mkDx 0 = Except.ok (-2) := by
  rw [mkDx, if_neg (by decide)]
  norm_num

/-- C8 (amended): for `nx = 1` grid construction fails with Python's
unstructured `ZeroDivisionError`, and for `nx = 0` it succeeds with the
meaningless spacing -2; no `InvalidGridError`-style check exists in the
code. -/
theorem mkDx_amended :
    mkDx 1 = Except.error PyError.zeroDivision ∧ mkDx 0 = Except.ok (-2) := by
  constructor
  · rw [mkDx, if_pos (by decide)]
  · rw [mkDx, if_neg (by decide)]
    norm_num

theorem sweepLoopO_eq_some (speed : ℚ → ℚ) (dt dx : ℚ) (un : List ℚ)
    (fuel : ℕ) : ∀ (first : ℕ) (u : List ℚ), u.length = un.length →
    first + fuel ≤ un.length →
    sweepLoopO speed dt dx un first fuel u =
      some (sweepLoop speed dt dx un first fuel u) := by
  induction fuel with
  | zero => intro first u _ _; rfl
  | succ fuel ih =>
      intro first u hlen hb
      have hf : first < un.length := by omega
      have hf1 : first - 1 < un.length := by omega
      rw [sweepLoopO, sweepLoop, newValO,
        getElem?_eq_some_getD un first hf, getElem?_eq_some_getD un (first - 1) hf1]
      show (setO u first (newVal speed dt dx un first)).bind _ = _
      rw [setO, if_pos (show first < u.length by omega)]
      show sweepLoopO speed dt dx un (first + 1) fuel _ = _
      exact ih (first + 1) _ (by rw [List.length_set]; exact hlen) (by omega)

theorem sweepO_eq_some (speed : ℚ → ℚ) (dt dx : ℚ) (u : List ℚ)
    (h : 1 ≤ u.length) :
    sweepO speed dt dx u = some (sweep speed dt dx u) :=
  sweepLoopO_eq_some speed dt dx u (u.length - 1) 1 u rfl (by omega)

/-- C9: on a field of at least two points every array access of the sweep
is in bounds — the inner loop writes index `i` and reads `i` and `i-1`
only for `i` between 1 and N-1 — so the checked (Option-returning)
embedding of the stepper never reaches its out-of-bounds branch and
agrees with the total stepper. -/
theorem advanceO_never_out_of_bounds (u : List ℚ) (speed : ℚ → ℚ)
    (dt dx : ℚ) (steps : ℕ) (hN : 2 ≤ u.length) :
    advanceO speed dt dx steps u = some (advance speed dt dx steps u) := by
  induction steps generalizing u with
  | zero => rfl
  | succ n ih =>
      rw [advanceO, advance, sweepO_eq_some speed dt dx u (by omega)]
      show advanceO speed dt dx n (sweep speed dt dx u) = _
      exact ih _ (by rw [sweep_length]; exact hN)

theorem advanceO_never_out_of_bounds_witness :
    2 ≤ ([3, 5, 8] : List ℚ).length ∧
      advanceO (fun _ => 2) 1 1 2 [3, 5, 8] =
        some (advance (fun _ => 2) 1 1 2 [3, 5, 8]) :=
  ⟨by decide, advanceO_never_out_of_bounds [3, 5, 8] (fun _ => 2) 1 1 2 (by decide)⟩

theorem sweep_bounds (speed : ℚ → ℚ) (dt dx lo hi : ℚ) (u : List ℚ)
    (hb : ∀ i, i < u.length → lo ≤ u.getD i 0 ∧ u.getD i 0 ≤ hi)
    (hcfl : ∀ i, 1 ≤ i → i < u.length →
      0 ≤ speed (u.getD i 0) * dt / dx ∧ speed (u.getD i 0) * dt / dx ≤ 1) :
    ∀ j, j < u.length →
      lo ≤ (sweep speed dt dx u).getD j 0 ∧ (sweep speed dt dx u).getD j 0 ≤ hi := by
  intro j hj
  have hg : (sweep speed dt dx u).getD j 0 =
      if 1 ≤ j ∧ j < u.length then newVal speed dt dx u j else u.getD j 0 := by
    rw [List.getD_eq_getElem?_getD, sweep_getElem?]
    split_ifs
    · rfl
    · rw [← List.getD_eq_getElem?_getD]
  rw [hg]
  split_ifs with h1
  · obtain ⟨halo, hahi⟩ := hb j hj
    obtain ⟨hblo, hbhi⟩ := hb (j - 1) (by omega)
    obtain ⟨hn0, hn1⟩ := hcfl j h1.1 hj
    unfold newVal
    constructor
    · nlinarith [mul_nonneg (by linarith : (0:ℚ) ≤ 1 - speed (u.getD j 0) * dt / dx)
          (by linarith : (0:ℚ) ≤ u.getD j 0 - lo),
        mul_nonneg hn0 (by linarith : (0:ℚ) ≤ u.getD (j - 1) 0 - lo)]
    · nlinarith [mul_nonneg (by linarith : (0:ℚ) ≤ 1 - speed (u.getD j 0) * dt / dx)
          (by linarith : (0:ℚ) ≤ hi - u.getD j 0),
        mul_nonneg hn0 (by linarith : (0:ℚ) ≤ hi - u.getD (j - 1) 0)]
  · exact hb j hj

theorem advance_bounds_aux (n : ℕ) : ∀ u : List ℚ,
    (∀ j, j < u.length → 1 ≤ u.getD j 0 ∧ u.getD j 0 ≤ 2) →
    ∀ j, j < (advance (fun _ => 1) 0.025 (2 / (41 - 1)) n u).length →
      1 ≤ (advance (fun _ => 1) 0.025 (2 / (41 - 1)) n u).getD j 0 ∧
      (advance (fun _ => 1) 0.025 (2 / (41 - 1)) n u).getD j 0 ≤ 2 := by
  induction n with
  | zero => intro u hu j hj; exact hu j hj
  | succ n ih =>
      intro u hu j hj
      rw [advance] at hj ⊢
      refine ih (sweep (fun _ => 1) 0.025 (2 / (41 - 1)) u) ?_ j hj
      intro i hi
      exact sweep_bounds (fun _ => 1) 0.025 (2 / (41 - 1)) 1 2 u hu
        (fun k _ _ => by norm_num) i (by rwa [sweep_length] at hi)

/-- C10: discrete maximum principle.  Whenever every interior Courant
factor `speed(snapshot[i]) * dt / dx` lies in the unit interval, a sweep
keeps every value inside any band that contains the pre-sweep field
(each update is the convex combination
`(1 - nu) * snapshot[i] + nu * snapshot[i-1]`); moreover for the Step-1
parameters the Courant factor is exactly 1/2 in exact arithmetic, and the
linear run on the hat initial condition stays inside the band from 1 to 2
at every index after any number of steps. -/
theorem discrete_max_principle :
    (∀ (speed : ℚ → ℚ) (dt dx lo hi : ℚ) (u : List ℚ),
        (∀ i, i < u.length → lo ≤ u.getD i 0 ∧ u.getD i 0 ≤ hi) →
        (∀ i, 1 ≤ i → i < u.length →
          0 ≤ speed (u.getD i 0) * dt / dx ∧ speed (u.getD i 0) * dt / dx ≤ 1) →
        ∀ j, j < u.length →
          lo ≤ (sweep speed dt dx u).getD j 0 ∧ (sweep speed dt dx u).getD j 0 ≤ hi)
    ∧ (1 * 0.025 / (2 / (41 - 1)) : ℚ) = 1/2
    ∧ ∀ n j, j < 41 →
        1 ≤ (linearAdvance 1 0.025 (2 / (41 - 1)) n ic41).getD j 0 ∧
        (linearAdvance 1 0.025 (2 / (41 - 1)) n ic41).getD j 0 ≤ 2 := by
  refine ⟨sweep_bounds, by norm_num, fun n j hj => ?_⟩
  have hlen : ic41.length = 41 := by decide
  exact advance_bounds_aux n ic41 (by decide) j (by rw [advance_length]; omega)

theorem discrete_max_principle_witness :
    (1 ≤ (sweep (fun _ => 1) 0.025 (2 / (41 - 1)) ic41).getD 15 0 ∧
      (sweep (fun _ => 1) 0.025 (2 / (41 - 1)) ic41).getD 15 0 ≤ 2) ∧
    (1 ≤ (linearAdvance 1 0.025 (2 / (41 - 1)) 3 ic41).getD 12 0 ∧
      (linearAdvance 1 0.025 (2 / (41 - 1)) 3 ic41).getD 12 0 ≤ 2) :=
  ⟨discrete_max_principle.1 (fun _ => 1) 0.025 (2 / (41 - 1)) 1 2 ic41
      (by decide) (fun k _ _ => by norm_num) 15 (by decide),
    discrete_max_principle.2.2 3 12 (by decide)⟩
